import Mathlib

/-!
# Verification of the News-trend-spike-monitor core

A shallow embedding of the repository's core components, translated from the
Python sources:

* `src/src/anomaly/zscore_detector.py`        → `NewsTrend.ZScoreDetector`
* `src/src/anomaly/moving_average_detector.py`→ `NewsTrend.MovingAverageDetector`
* `src/src/services/trend_service.py`         → `NewsTrend.TrendService`
* `src/app/api/cache.py`                      → `NewsTrend.InMemoryCache`
* `src/app/api/job_queue.py`                  → `NewsTrend.JobQueue`

Modelling conventions:

* Python floats are modelled as exact rationals (`ℚ`); a possibly-NaN/missing
  float is `Option ℚ` with `none` playing the role of NaN.
* `numpy.std` is the population standard deviation `√(popVar l)`.  Since `√`
  is not rational, every comparison `|x| / std > threshold` performed by the
  code is encoded by the exactly equivalent rational test `zExceeds`
  (for `std > 0`: `|x|/√v > t ↔ t < 0 ∨ t² · v < x²`), and the reported
  float score `|x|/std` is represented by its square (`scoreSq = x²/v`).
  `√` is strictly monotone on `[0, ∞)`, so this preserves every branch the
  code takes and all equalities/orderings of reported scores.
* External collaborators that are not part of the core (the text cleaner's
  regexes, the sentiment model, the spike detector whose module is not in the
  tree, network collectors, `datetime.now`, `uuid4`, `md5`) enter as explicit
  function/value parameters of the embedded pipeline.
-/

namespace NewsTrend

/-- Python `str.strip()`: remove leading and trailing whitespace characters. -/
def pyStrip (s : String) : String :=
  ⟨((s.data.dropWhile Char.isWhitespace).reverse.dropWhile Char.isWhitespace).reverse⟩

/-- Arithmetic mean of a list of rationals (`numpy.mean`); `0` on `[]`. -/
def mean (l : List ℚ) : ℚ := l.sum / l.length

/-- Population variance, i.e. the square of `numpy.std` (default `ddof = 0`). -/
def popVar (l : List ℚ) : ℚ := (l.map (fun x => (x - mean l) ^ 2)).sum / l.length

/-- Exact encoding of the float test `|x| / √v > t` for `v > 0`:
if `t < 0` the test always holds, otherwise it is equivalent to
`t² · v < x²` (square both non-negative sides). -/
def zExceeds (x v t : ℚ) : Bool :=
  if t < 0 then true else decide (t ^ 2 * v < x ^ 2)

/-- The pairs `(index, value)` of the non-NaN entries of a value array,
starting at index `n`: the combination of `valid_mask = ~np.isnan(values)`,
`valid_indices = np.where(valid_mask)[0]` and `valid_values = values[valid_mask]`
used by both detectors. -/
def validPairsFrom (n : ℕ) : List (Option ℚ) → List (ℕ × ℚ)
  | [] => []
  | some v :: xs => (n, v) :: validPairsFrom (n + 1) xs
  | none :: xs => validPairsFrom (n + 1) xs

/-- `validPairsFrom` starting at raw index 0. -/
def validPairs (values : List (Option ℚ)) : List (ℕ × ℚ) :=
  validPairsFrom 0 values

/-- One detected anomaly, as built by both detectors:
`{"start": idx, "end": idx, "score": z, "value": v}`.  The raw index is
stored in `start` and `endIdx` (Python key `"end"`); `scoreSq` is the square
of the float score (see the header comment). -/
structure AnomalyRec where
  start : ℕ
  endIdx : ℕ
  scoreSq : ℚ
  value : ℚ
deriving DecidableEq, Repr

namespace ZScoreDetector

/-- `ZScoreDetector.detect` from `src/src/anomaly/zscore_detector.py`,
lines 26-100, applied to the column `values` of the dataframe (the
missing-column guard is outside the embedding: the pipeline always passes an
existing column).  `threshold` is the constructor parameter. -/
def detect (threshold : ℚ) (values : List (Option ℚ)) : List AnomalyRec :=
  if values.length < 2 then []
  else
    let vp := validPairs values
    if vp.length < 2 then []
    else
      let valids := vp.map Prod.snd
      let m := mean valids
      let sv := popVar valids
      if sv = 0 then []
      else
        vp.filterMap fun p =>
          if zExceeds (p.2 - m) sv threshold then
            some ⟨p.1, p.1, (p.2 - m) ^ 2 / sv, p.2⟩
          else none

/-- `ZScoreDetector.detect_anomalies` (lines 102-139): same statistics on a
plain value list, returning the anomalous raw indices. -/
def detect_anomalies (threshold : ℚ) (values : List (Option ℚ)) : List ℕ :=
  if values.length < 2 then []
  else
    let vp := validPairs values
    if vp.length < 2 then []
    else
      let valids := vp.map Prod.snd
      let m := mean valids
      let sv := popVar valids
      if sv = 0 then []
      else
        vp.filterMap fun p =>
          if zExceeds (p.2 - m) sv threshold then some p.1 else none

end ZScoreDetector

namespace MovingAverageDetector

/-- The raw slice `values[a : b + 1]` (`window_start = a`, `window_end = b`). -/
def rawSlice (values : List (Option ℚ)) (a b : ℕ) : List (Option ℚ) :=
  (values.drop a).take (b + 1 - a)

/-- `MovingAverageDetector._calculate_moving_average`
(`src/src/anomaly/moving_average_detector.py`, lines 112-148) at the valid
entry of rank `r` (the loop variable `i`): for `window_size ≤ i < len(valid_indices)`
the mean of the valid values inside
`values[valid_indices[i - window_size] : valid_indices[i] + 1]`; every other
position of the `moving_avg` array stays NaN (`none`).  The `try/except`
guard never fires (the body is total), and `window_valid.sum() > 0` is kept
as the `ws.length > 0` test. -/
def movingAvgAtRank (window : ℕ) (values : List (Option ℚ)) (r : ℕ) : Option ℚ :=
  if window ≤ r then
    ((validPairs values).get? (r - window)).bind fun pa =>
      ((validPairs values).get? r).bind fun pb =>
        if ((rawSlice values pa.1 pb.1).filterMap id).length > 0 then
          some (mean ((rawSlice values pa.1 pb.1).filterMap id))
        else none
  else none

/-- `MovingAverageDetector.detect` (lines 32-110) on the column `values`.
A raw index enters `anomaly_mask` only when it is valid *and* its
`moving_avg` entry is not NaN (NaN comparisons are false), i.e. only at the
valid entries of rank `≥ window_size`; the mask test
`deviation / std > threshold` is `zExceeds`. -/
def detect (window : ℕ) (threshold : ℚ) (values : List (Option ℚ)) : List AnomalyRec :=
  if values.length < window + 1 then []
  else
    let vp := validPairs values
    if vp.length < window + 1 then []
    else
      let sv := popVar (vp.map Prod.snd)
      if sv = 0 then []
      else
        (List.range vp.length).filterMap fun r =>
          (vp.get? r).bind fun p =>
            (movingAvgAtRank window values r).bind fun ma =>
              if zExceeds (p.2 - ma) sv threshold then
                some ⟨p.1, p.1, (p.2 - ma) ^ 2 / sv, p.2⟩
              else none

end MovingAverageDetector

/-! ## TrendService (`src/src/services/trend_service.py`)

`analyze_trend` is embedded as a function of its external collaborators:

* `clean` — `TextCleaner.clean_text` (regex text cleaning, out of core scope);
* `analyzeSentiment` — `SentimentAnalyzer.analyze` as the black-box
  `text → (sentiment.get("positive", 0.5), sentiment.get("confidence", 0.0))`;
  the per-item `try/except` around it never fires for a total function, so it
  is modelled as total;
* `spikeDetect` — `SpikeDetector.detect` (module not in the tree), an
  arbitrary function from the bucket value column to spike records of an
  arbitrary type `σ`;
* the collected items of the two collectors enter as the lists
  `rssItems`/`googleItems` (a collector exception = that list being empty);
* `datetime.now()` enters as the parameter `now`.

A news item dict is modelled by its fields used here; a missing `link` is the
empty string (the code reads `item.get("link", "")`).  `pubDate` is `some t`
(seconds since the epoch) when the string parses in the exact format
`"%Y-%m-%d %H:%M:%S"`, `none` otherwise (`pd.to_datetime(..., errors="coerce")`
turns the latter into NaT, which `dropna` removes).  Bucket labels are kept
as these numeric timestamps: the code's final sort key is the fixed-width
ISO-format string, on which lexicographic order agrees with numeric order. -/

structure NewsItem where
  title : String
  summary : String
  link : String
  pubDate : Option ℕ
deriving DecidableEq, Repr

/-- An item after step 2's cleaning: the dict mutated with
`title_cleaned`/`summary_cleaned`. -/
structure ProcessedItem extends NewsItem where
  titleCleaned : String
  summaryCleaned : String
deriving DecidableEq, Repr

/-- An item after step 3: the dict further mutated with
`sentiment_score`/`confidence` (`none` when the keys were never set, which
becomes NaN in the dataframe). -/
structure ScoredItem extends ProcessedItem where
  sentimentScore : Option ℚ
  confidence : Option ℚ
deriving DecidableEq, Repr

/-- A row of the `time_series` list built by `_create_time_series`. -/
structure TimeBucket where
  timestamp : ℕ
  avgSentiment : ℚ
  count : ℕ
  avgConfidence : ℚ
deriving DecidableEq, Repr

namespace TrendService

/-- Step 2 (lines 117-128): clean both texts, drop items where both cleaned
texts are empty (`if not title and not summary: continue`). -/
def preprocess (clean : String → String) (items : List NewsItem) : List ProcessedItem :=
  items.filterMap fun it =>
    let t := clean it.title
    let s := clean it.summary
    if t = "" ∧ s = "" then none else some ⟨it, t, s⟩

/-- Step 2's dedup loop (lines 130-137): keep an item iff its link is
non-empty and not seen before; first occurrence wins. -/
def dedupLoop (seen : List String) : List ProcessedItem → List ProcessedItem
  | [] => []
  | it :: rest =>
    if it.link ≠ "" ∧ it.link ∉ seen then it :: dedupLoop (it.link :: seen) rest
    else dedupLoop seen rest

/-- `unique_items`, from an empty `seen_links` set. -/
def dedupByLink (items : List ProcessedItem) : List ProcessedItem :=
  dedupLoop [] items

/-- The text scored in step 3: `f"{title_cleaned} {summary_cleaned}"`. -/
def itemText (p : ProcessedItem) : String :=
  p.titleCleaned ++ " " ++ p.summaryCleaned

/-- Step 3 (lines 142-160): skip items whose text strips to empty (they never
receive a `sentiment_score` key), score the rest. -/
def scoreItems (analyzeSentiment : String → ℚ × ℚ) (items : List ProcessedItem) :
    List ScoredItem :=
  items.map fun p =>
    if pyStrip (itemText p) = "" then ⟨p, none, none⟩
    else
      let sc := analyzeSentiment (itemText p)
      ⟨p, some sc.1, some sc.2⟩

/-- `sentiment_results`: the scores appended inside the loop, in item order. -/
def sentimentResults (analyzeSentiment : String → ℚ × ℚ) (items : List ProcessedItem) :
    List ℚ :=
  (scoreItems analyzeSentiment items).filterMap ScoredItem.sentimentScore

/-- `df["published_dt"].dt.floor(f"{time_window_hours}H")`: the timestamp
floored to a multiple of `time_window_hours` hours. -/
def binKey (timeWindowHours : ℕ) (t : ℕ) : ℕ :=
  t - t % (timeWindowHours * 3600)

/-- The `time_bin` value of a (valid) row. -/
def keyOf (timeWindowHours : ℕ) (it : ScoredItem) : ℕ :=
  binKey timeWindowHours (it.pubDate.getD 0)

/-- Whether a row survives `df.dropna(subset=["published_dt", "sentiment_score"])`. -/
def isValidRow (it : ScoredItem) : Bool :=
  it.pubDate.isSome && it.sentimentScore.isSome

/-- One aggregated row of the `groupby("time_bin")` result: mean sentiment,
row count (`count` counts the non-NaN `sentiment_score` entries, i.e. all of
them after `dropna`), mean confidence (a NaN mean — any member missing —
is stored as `0.0`). -/
def bucketFor (timeWindowHours : ℕ) (valid : List ScoredItem) (k : ℕ) : TimeBucket :=
  let group := valid.filter fun it => keyOf timeWindowHours it = k
  let confs := group.map ScoredItem.confidence
  { timestamp := k
    avgSentiment := mean (group.filterMap ScoredItem.sentimentScore)
    count := group.length
    avgConfidence := if confs.all Option.isSome then mean (confs.filterMap id) else 0 }

/-- `TrendService._create_time_series` (lines 199-246): parse/filter the rows,
group by `time_bin`, aggregate, and sort ascending by bucket timestamp
(`groupby` already yields ascending keys; the final `sorted(...)` by the
ISO-format label keeps that order). -/
def createTimeSeries (timeWindowHours : ℕ) (newsItems : List ScoredItem) :
    List TimeBucket :=
  if newsItems.isEmpty then []
  else
    let valid := newsItems.filter isValidRow
    if valid.isEmpty then []
    else
      let keys := List.insertionSort (· ≤ ·) (valid.map (keyOf timeWindowHours)).dedup
      keys.map (bucketFor timeWindowHours valid)

/-- The `anomalies` sub-dict of the result. -/
structure Anomalies where
  zscore : List AnomalyRec
  movingAverage : List AnomalyRec
deriving DecidableEq, Repr

/-- The result dict assembled by `analyze_trend` (step 7), over an arbitrary
type `σ` of spike records. -/
structure AnalysisResult (σ : Type) where
  keyword : String
  totalNews : ℕ
  avgSentiment : ℚ
  timeSeries : List TimeBucket
  spikes : List σ
  anomalies : Anomalies
  newsItems : List ScoredItem
  analyzedAt : ℕ

/-- `TrendService._empty_result` (lines 248-262). -/
def emptyResult (σ : Type) (keyword : String) (now : ℕ) : AnalysisResult σ :=
  { keyword := keyword
    totalNews := 0
    avgSentiment := 1/2
    timeSeries := []
    spikes := []
    anomalies := ⟨[], []⟩
    newsItems := []
    analyzedAt := now }

/-- `TrendService.analyze_trend` (lines 76-197).  The service constructs its
detectors with `ZScoreDetector(threshold=2.0)` and
`MovingAverageDetector(window_size=5, threshold=2.0)` and runs them (and the
spike detector) on the `avg_sentiment` column of the time series, which
contains no NaN. -/
def analyze_trend {σ : Type} (clean : String → String)
    (analyzeSentiment : String → ℚ × ℚ)
    (spikeDetect : List (Option ℚ) → List σ)
    (keyword : String) (rssItems googleItems : List NewsItem)
    (timeWindowHours : ℕ) (now : ℕ) : AnalysisResult σ :=
  let newsItems := rssItems ++ googleItems
  if newsItems.isEmpty then emptyResult σ keyword now
  else
    let uniqueItems := dedupByLink (preprocess clean newsItems)
    let scored := scoreItems analyzeSentiment uniqueItems
    let sres := (scored.filterMap ScoredItem.sentimentScore)
    let ts := createTimeSeries timeWindowHours scored
    if ts.isEmpty then emptyResult σ keyword now
    else
      let col := ts.map fun b => some b.avgSentiment
      { keyword := keyword
        totalNews := uniqueItems.length
        avgSentiment := if sres.isEmpty then 1/2 else mean sres
        timeSeries := ts
        spikes := spikeDetect col
        anomalies := ⟨ZScoreDetector.detect 2 col, MovingAverageDetector.detect 5 2 col⟩
        newsItems := scored.take 20
        analyzedAt := now }

end TrendService

/-! ## InMemoryCache (`src/app/api/cache.py`)

Only `_generate_key` carries algorithmic content relevant here: the cache key
is `md5(f"{prefix}:{json.dumps(kwargs, sort_keys=True)}")`.  The keyword
arguments are a Python dict — distinct keys — serialized as a JSON object
whose keys are sorted; `md5` enters as an arbitrary digest function
parameter.  Parameter values in the API layer are scalars (strings, ints,
bools, `None`); string values are assumed to need no JSON escaping, which
does not affect the canonicalization property. -/

/-- A scalar JSON parameter value. -/
inductive JsonVal where
  | str (s : String)
  | int (n : Int)
  | bool (b : Bool)
  | null
deriving DecidableEq, Repr

/-- `json.dumps` of one scalar value. -/
def JsonVal.dumps : JsonVal → String
  | .str s => "\"" ++ s ++ "\""
  | .int n => toString n
  | .bool true => "true"
  | .bool false => "false"
  | .null => "null"

namespace InMemoryCache

/-- `sort_keys=True`: the key-value pairs in ascending key order. -/
def sortParams (kwargs : List (String × JsonVal)) : List (String × JsonVal) :=
  List.insertionSort (fun a b => a.1 ≤ b.1) kwargs

/-- `json.dumps(kwargs, sort_keys=True)`: a JSON object with sorted keys and
the default `", "` / `": "` separators. -/
def dumpsObj (kwargs : List (String × JsonVal)) : String :=
  "\x7b" ++
    String.intercalate ", "
      ((sortParams kwargs).map fun p => "\"" ++ p.1 ++ "\"" ++ ": " ++ p.2.dumps) ++
  "\x7d"

/-- `InMemoryCache._generate_key` (`src/app/api/cache.py`, lines 28-40), with
`hashlib.md5(...).hexdigest()` as the digest parameter `md5hex` and the
`prefix` argument named `opName`. -/
def generate_key (md5hex : String → String) (opName : String)
    (kwargs : List (String × JsonVal)) : String :=
  md5hex (opName ++ ":" ++ dumpsObj kwargs)

end InMemoryCache

/-! ## JobQueue (`src/app/api/job_queue.py`)

The job table is a Python dict `job_id → job dict`, modelled as an
association list in insertion order with unique keys.  `uuid.uuid4()` and
`datetime.now()` enter as parameters (`jobId`, `now`).  The `result`
values are opaque (`Option String` here); Python's `if result:` truthiness
is modelled by `Option.isSome` (the empty-dict/empty-string corner of
truthiness is irrelevant to the status field studied here). -/

/-- `JobStatus` (lines 16-21). -/
inductive JobStatus where
  | pending
  | processing
  | completed
  | failed
deriving DecidableEq, Repr

/-- One job dict as created by `create_job`/mutated by `update_job_status`. -/
structure Job where
  jobId : String
  jobType : String
  params : List (String × JsonVal)
  status : JobStatus
  createdAt : ℕ
  updatedAt : Option ℕ
  result : Option String
  error : Option String
deriving DecidableEq, Repr

/-- The `JobQueue.jobs` dict. -/
structure JobQueue where
  jobs : List (String × Job)
deriving DecidableEq, Repr

namespace JobQueue

/-- `JobQueue.create_job` (lines 33-54): insert a fresh Pending job under a
fresh id. -/
def create_job (q : JobQueue) (jobId jobType : String)
    (params : List (String × JsonVal)) (now : ℕ) : JobQueue :=
  ⟨q.jobs ++ [(jobId, ⟨jobId, jobType, params, .pending, now, none, none, none⟩)]⟩

/-- `JobQueue.get_job` (lines 56-66). -/
def get_job (q : JobQueue) (jobId : String) : Option Job :=
  q.jobs.lookup jobId

/-- The field mutations `update_job_status` performs on the found job dict:
set `status` and `updated_at` unconditionally, overwrite `result`/`error`
only when truthy. -/
def applyUpdate (status : JobStatus) (result : Option String) (error : Option String)
    (now : ℕ) (j : Job) : Job :=
  { j with
      status := status
      updatedAt := some now
      result := if result.isSome then result else j.result
      error := if error.isSome then error else j.error }

/-- `JobQueue.update_job_status` (lines 70-99): unknown id → warn and return
unchanged; otherwise mutate the job dict stored under `jobId`. -/
def update_job_status (q : JobQueue) (jobId : String) (status : JobStatus)
    (result : Option String) (error : Option String) (now : ℕ) : JobQueue :=
  if (q.jobs.lookup jobId).isSome then
    ⟨q.jobs.map fun p =>
      if p.1 = jobId then (p.1, applyUpdate status result error now p.2) else p⟩
  else q

end JobQueue

/-! ## Ordering instances for the parameter-sorting relation -/

instance : IsTrans (String × JsonVal) (fun a b => a.1 ≤ b.1) :=
  ⟨fun _ _ _ h1 h2 => le_trans h1 h2⟩

instance : IsTotal (String × JsonVal) (fun a b => a.1 ≤ b.1) :=
  ⟨fun a b => le_total a.1 b.1⟩

instance : IsAntisymm (String × JsonVal) (fun a b => a.1 < b.1) :=
  ⟨fun _ _ h1 h2 => (lt_asymm h1 h2).elim⟩

/-- A queue whose single job `"j"` has been driven to the terminal status
`completed`. -/
def terminalQueue : JobQueue :=
  JobQueue.update_job_status
    (JobQueue.create_job ⟨[]⟩ "j" "trend_analysis" [] 0) "j" .completed none none 1

/-- The spec's trailing window at rank `r`: the valid values of ranks
`r - window .. r`. -/
def specWindow (window : ℕ) (valids : List ℚ) (r : ℕ) : List ℚ :=
  (valids.take (r + 1)).drop (r - window)

/-- The spec's flagging condition (§4.3) at raw index `j`: `j` is the valid
entry of some rank `r` at or after the first full window, and the deviation
of its value from the mean of the valid values in the window ending at `r`,
measured against the global population standard deviation of all valid
values, exceeds the threshold (the `zExceeds` encoding of
`|value − windowMean| / globalStd > threshold`). -/
def specFlagged (window : ℕ) (threshold : ℚ) (values : List (Option ℚ)) (j : ℕ) : Prop :=
  ∃ r v, (validPairs values).get? r = some (j, v) ∧ window ≤ r ∧
    zExceeds (v - mean (specWindow window (values.filterMap id) r))
      (popVar (values.filterMap id)) threshold = true

/-! ## Basic facts about the shared helpers -/

theorem validPairsFrom_map_snd (n : ℕ) (vs : List (Option ℚ)) :
    (validPairsFrom n vs).map Prod.snd = vs.filterMap id := by
  induction vs generalizing n with
  | nil => rfl
  | cons x xs ih =>
    cases x with
    | some v => simp [validPairsFrom, ih]
    | none => simp [validPairsFrom, ih]

theorem validPairs_map_snd (vs : List (Option ℚ)) :
    (validPairs vs).map Prod.snd = vs.filterMap id :=
  validPairsFrom_map_snd 0 vs

theorem validPairsFrom_length (n : ℕ) (vs : List (Option ℚ)) :
    (validPairsFrom n vs).length = (vs.filterMap id).length := by
  rw [← validPairsFrom_map_snd n vs, List.length_map]

theorem validPairsFrom_le_idx (n : ℕ) (vs : List (Option ℚ)) :
    ∀ p ∈ validPairsFrom n vs, n ≤ p.1 := by
  induction vs generalizing n with
  | nil => simp [validPairsFrom]
  | cons x xs ih =>
    cases x with
    | some v =>
      intro p hp
      rcases (by simpa [validPairsFrom] using hp : p = (n, v) ∨ p ∈ validPairsFrom (n + 1) xs)
        with h | h
      · simp [h]
      · exact le_trans (Nat.le_succ n) (ih (n + 1) p h)
    | none =>
      intro p hp
      exact le_trans (Nat.le_succ n) (ih (n + 1) p (by simpa [validPairsFrom] using hp))

/-- The sum of a constant list. -/
theorem sum_of_const (a : ℚ) (l : List ℚ) (h : ∀ x ∈ l, x = a) :
    l.sum = a * l.length := by
  induction l with
  | nil => simp
  | cons b t ih =>
    have hb : b = a := h b (by simp)
    have ht : ∀ x ∈ t, x = a := fun x hx => h x (by simp [hx])
    rw [List.sum_cons, ih ht, hb, List.length_cons]
    push_cast
    ring

/-- If all elements of a list are equal then its population variance is 0. -/
theorem popVar_eq_zero_of_const (l : List ℚ) (h : ∀ x ∈ l, ∀ y ∈ l, x = y) :
    popVar l = 0 := by
  cases l with
  | nil => simp [popVar]
  | cons a t =>
    have hall : ∀ x ∈ a :: t, x = a := fun x hx => h x hx a (by simp)
    have hmean : mean (a :: t) = a := by
      rw [mean, sum_of_const a _ hall]
      have hlen : ((a :: t).length : ℚ) ≠ 0 := by
        have : (0 : ℚ) ≤ (t.length : ℚ) := by positivity
        simp only [List.length_cons]
        push_cast
        linarith
      field_simp
    rw [popVar]
    have hmap : ((a :: t).map fun x => (x - mean (a :: t)) ^ 2)
        = (a :: t).map fun _ => (0 : ℚ) := by
      apply List.map_congr_left
      intro x hx
      rw [hall x hx, hmean]
      ring
    rw [hmap]
    simp

/-! ## C1: the z-score scenario series -/

/-- C1: the claim says `ZScoreDetector(threshold=2.0)` flags exactly index 3
of `[1.0, 1.1, 1.0, 10.0, 1.1]`.  The code flags nothing on this series: the
z-score of index 3 is `√(64082/16023) ≈ 1.99985`, which does not exceed the
strict threshold `2.0` (mean `2.84`, population variance `12.8184`,
`7.16² = 51.2656 < 2² · 12.8184 = 51.2736`).  Both `detect` and
`detect_anomalies` return the empty list, contradicting the claim and the
repository's own tests (`test_detect_with_anomaly`,
`test_detect_anomalies_list` in `tests/test_zscore_detector.py` assert a
non-empty result containing value 10.0). -/
theorem c1_zscore_scenario_series_flags_no_index :
    ZScoreDetector.detect 2 [some 1, some (11/10), some 1, some 10, some (11/10)] = [] ∧
    ZScoreDetector.detect_anomalies 2 [some 1, some (11/10), some 1, some 10, some (11/10)]
      = [] := by
  constructor
  · norm_num [ZScoreDetector.detect, validPairs, validPairsFrom, mean, popVar, zExceeds,
      List.filterMap_cons]
  · norm_num [ZScoreDetector.detect_anomalies, validPairs, validPairsFrom, mean, popVar,
      zExceeds, List.filterMap_cons]

/-! ## C8: empty collection short-circuits to the empty result -/

/-- C8: when both collectors yield no news items, `analyze_trend` returns the
well-defined empty result: `total_news = 0`, `avg_sentiment = 0.5`, empty
time series, empty spikes, and empty z-score and moving-average anomaly
lists. -/
theorem c8_empty_collection_yields_empty_result (σ : Type) (clean : String → String)
    (analyzeSentiment : String → ℚ × ℚ) (spikeDetect : List (Option ℚ) → List σ)
    (keyword : String) (timeWindowHours now : ℕ) :
    TrendService.analyze_trend clean analyzeSentiment spikeDetect keyword [] []
        timeWindowHours now = TrendService.emptyResult σ keyword now ∧
    (TrendService.analyze_trend clean analyzeSentiment spikeDetect keyword [] []
        timeWindowHours now).totalNews = 0 ∧
    (TrendService.analyze_trend clean analyzeSentiment spikeDetect keyword [] []
        timeWindowHours now).avgSentiment = 1/2 ∧
    (TrendService.analyze_trend clean analyzeSentiment spikeDetect keyword [] []
        timeWindowHours now).timeSeries = [] ∧
    (TrendService.analyze_trend clean analyzeSentiment spikeDetect keyword [] []
        timeWindowHours now).spikes = [] ∧
    (TrendService.analyze_trend clean analyzeSentiment spikeDetect keyword [] []
        timeWindowHours now).anomalies = ⟨[], []⟩ :=
  ⟨rfl, rfl, rfl, rfl, rfl, rfl⟩

/-! ## C2: terminal job states are not protected -/

/-- C2 counterexample: the claim says that once a job's status is terminal
(`completed`/`failed`), no later `update_job_status` call changes it.  In the
code `update_job_status` never inspects the current status: updating job
`"j"` — already `completed` — to `pending` succeeds and leaves the job
`pending`. -/
theorem c2_counterexample_terminal_status_overwritten :
    (JobQueue.get_job terminalQueue "j").map Job.status = some .completed ∧
    (JobQueue.get_job
        (JobQueue.update_job_status terminalQueue "j" .pending none none 2) "j").map
      Job.status = some .pending ∧
    JobStatus.pending ≠ JobStatus.completed := by
  refine ⟨rfl, rfl, by decide⟩

theorem lookup_map_update {β : Type} (l : List (String × β)) (k : String)
    (g : β → β) (j : β) (h : l.lookup k = some j) :
    (l.map fun p => if p.1 = k then (p.1, g p.2) else p).lookup k = some (g j) := by
  induction l with
  | nil => simp at h
  | cons p t ih =>
    obtain ⟨a, b⟩ := p
    rw [List.lookup_cons] at h
    by_cases hk : a = k
    · subst hk
      have htrue : (a == a) = true := by simp
      simp only [htrue] at h
      injection h with hbj
      subst hbj
      simp only [List.map_cons, if_pos rfl]
      rw [List.lookup_cons]
      simp [htrue]
    · have hf : (k == a) = false := beq_eq_false_iff_ne.mpr (Ne.symm hk)
      simp only [hf] at h
      simp only [List.map_cons, if_neg hk]
      rw [List.lookup_cons]
      simp only [hf]
      exact ih h

/-- C2 amended: `update_job_status` on a *known* job id always sets that
job's status to the requested status — regardless of the current status, so
a terminal (`completed`/`failed`) status is not protected and can be
overwritten by any later call.  (Unknown ids are left untouched.) -/
theorem c2_update_status_overwrites_unconditionally (q : JobQueue) (jobId : String)
    (status : JobStatus) (result error : Option String) (now : ℕ)
    (h : (JobQueue.get_job q jobId).isSome) :
    (JobQueue.get_job (JobQueue.update_job_status q jobId status result error now)
        jobId).map Job.status = some status := by
  rcases Option.isSome_iff_exists.mp h with ⟨j, hj⟩
  have hj2 : q.jobs.lookup jobId = some j := hj
  unfold JobQueue.update_job_status
  rw [hj2]
  simp only [Option.isSome_some, if_true]
  unfold JobQueue.get_job
  rw [lookup_map_update q.jobs jobId (JobQueue.applyUpdate status result error now) j hj2]
  rfl

/-- C2 amended, witness: overwriting the completed job `"j"` with `failed`. -/
theorem c2_update_status_overwrites_witness :
    (JobQueue.get_job
        (JobQueue.update_job_status terminalQueue "j" .failed none none 3) "j").map
      Job.status = some .failed :=
  c2_update_status_overwrites_unconditionally terminalQueue "j" .failed none none 3 (by decide)

/-! ## C5: flat series produce no anomalies -/

/-- C5: whenever every valid (non-NaN) value of the series equals every other
— a zero-variance series — both detectors return the empty list: every early
return is empty, and the main path hits the `std == 0` guard. -/
theorem c5_zero_variance_yields_no_anomalies (threshold : ℚ) (window : ℕ)
    (values : List (Option ℚ))
    (h : ∀ x ∈ values.filterMap id, ∀ y ∈ values.filterMap id, x = y) :
    ZScoreDetector.detect threshold values = [] ∧
    MovingAverageDetector.detect window threshold values = [] := by
  have hz : popVar ((validPairs values).map Prod.snd) = 0 := by
    rw [validPairs_map_snd]
    exact popVar_eq_zero_of_const _ h
  constructor
  · simp [ZScoreDetector.detect, hz]
  · simp [MovingAverageDetector.detect, hz]

/-- C5 witness: a flat series with a NaN hole, threshold 2, window 1. -/
theorem c5_zero_variance_witness :
    (∀ x ∈ ([some 1, some 1, none, some 1] : List (Option ℚ)).filterMap id,
      ∀ y ∈ ([some 1, some 1, none, some 1] : List (Option ℚ)).filterMap id, x = y) ∧
    ZScoreDetector.detect 2 [some 1, some 1, none, some 1] = [] ∧
    MovingAverageDetector.detect 1 2 [some 1, some 1, none, some 1] = [] :=
  ⟨by decide, c5_zero_variance_yields_no_anomalies 2 1 _ (by decide)⟩

/-! ## C9: items without a link are dropped by deduplication -/

theorem dedupLoop_link_ne_empty (seen : List String) (l : List ProcessedItem) :
    ∀ p ∈ TrendService.dedupLoop seen l, p.link ≠ "" := by
  induction l generalizing seen with
  | nil => simp [TrendService.dedupLoop]
  | cons it rest ih =>
    intro p hp
    unfold TrendService.dedupLoop at hp
    split at hp
    next hcond =>
      rcases List.mem_cons.mp hp with h | h
      · rw [h]
        exact hcond.1
      · exact ih _ p h
    next =>
      exact ih _ p hp

theorem scoreItems_link_ne_empty (analyzeSentiment : String → ℚ × ℚ)
    (l : List ProcessedItem) (h : ∀ p ∈ l, p.link ≠ "") :
    ∀ s ∈ TrendService.scoreItems analyzeSentiment l, s.link ≠ "" := by
  intro s hs
  rcases List.mem_map.mp hs with ⟨p, hp, hfp⟩
  have hlink : s.link = p.link := by
    rw [← hfp]
    by_cases hc : pyStrip (TrendService.itemText p) = ""
    · simp [hc]
    · simp [hc]
  rw [hlink]
  exact h p hp

theorem analyze_newsItems_subset_scored {σ : Type} (clean : String → String)
    (analyzeSentiment : String → ℚ × ℚ) (spikeDetect : List (Option ℚ) → List σ)
    (keyword : String) (rssItems googleItems : List NewsItem)
    (timeWindowHours now : ℕ) :
    ∀ s ∈ (TrendService.analyze_trend clean analyzeSentiment spikeDetect keyword rssItems
        googleItems timeWindowHours now).newsItems,
      s ∈ TrendService.scoreItems analyzeSentiment
        (TrendService.dedupByLink (TrendService.preprocess clean (rssItems ++ googleItems))) := by
  intro s hs
  simp only [TrendService.analyze_trend, apply_ite TrendService.AnalysisResult.newsItems,
    TrendService.emptyResult] at hs
  split at hs
  · simp at hs
  · split at hs
    · simp at hs
    · exact (List.take_sublist 20 _).subset hs

/-- C9: an input item whose `link` is missing (modelled as `""`) or empty is
dropped by the dedup step: every deduplicated item has a non-empty link, and
hence so does every item feeding the sentiment statistics and every item in
the result's `news_items` field. -/
theorem c9_empty_link_never_survives {σ : Type} (clean : String → String)
    (analyzeSentiment : String → ℚ × ℚ) (spikeDetect : List (Option ℚ) → List σ)
    (keyword : String) (rssItems googleItems : List NewsItem)
    (timeWindowHours now : ℕ) :
    (∀ p ∈ TrendService.dedupByLink (TrendService.preprocess clean (rssItems ++ googleItems)),
      p.link ≠ "") ∧
    (∀ s ∈ TrendService.scoreItems analyzeSentiment
        (TrendService.dedupByLink (TrendService.preprocess clean (rssItems ++ googleItems))),
      s.link ≠ "") ∧
    (∀ s ∈ (TrendService.analyze_trend clean analyzeSentiment spikeDetect keyword rssItems
        googleItems timeWindowHours now).newsItems,
      s.link ≠ "") := by
  refine ⟨dedupLoop_link_ne_empty [] _, scoreItems_link_ne_empty _ _
    (dedupLoop_link_ne_empty [] _), ?_⟩
  intro s hs
  exact scoreItems_link_ne_empty _ _ (dedupLoop_link_ne_empty [] _) s
    (analyze_newsItems_subset_scored clean analyzeSentiment spikeDetect keyword rssItems
      googleItems timeWindowHours now s hs)

/-! ## C10: a collected-but-unbinnable run reports zero news -/

/-- C10: when items are collected (and even survive preprocessing and dedup)
but the time series comes out empty — no deduplicated item has both a
parsable `pubDate` and a sentiment score — `analyze_trend` falls back to the
empty result and reports `total_news = 0`, although the deduplicated item
count is non-zero. -/
theorem c10_empty_time_series_reports_zero_news {σ : Type} (clean : String → String)
    (analyzeSentiment : String → ℚ × ℚ) (spikeDetect : List (Option ℚ) → List σ)
    (keyword : String) (rssItems googleItems : List NewsItem) (timeWindowHours now : ℕ)
    (hnews : rssItems ++ googleItems ≠ [])
    (_huniq : TrendService.dedupByLink
        (TrendService.preprocess clean (rssItems ++ googleItems)) ≠ [])
    (hts : TrendService.createTimeSeries timeWindowHours
        (TrendService.scoreItems analyzeSentiment
          (TrendService.dedupByLink
            (TrendService.preprocess clean (rssItems ++ googleItems)))) = []) :
    TrendService.analyze_trend clean analyzeSentiment spikeDetect keyword rssItems
        googleItems timeWindowHours now = TrendService.emptyResult σ keyword now ∧
    (TrendService.analyze_trend clean analyzeSentiment spikeDetect keyword rssItems
        googleItems timeWindowHours now).totalNews = 0 := by
  have hne : ¬((rssItems ++ googleItems).isEmpty = true) := by
    simpa [List.isEmpty_iff] using hnews
  have hmain : TrendService.analyze_trend clean analyzeSentiment spikeDetect keyword
      rssItems googleItems timeWindowHours now = TrendService.emptyResult σ keyword now := by
    simp only [TrendService.analyze_trend]
    rw [if_neg hne, hts]
    simp
  exact ⟨hmain, by rw [hmain]; rfl⟩

/-- C10 witness: one collected item with an unparsable date survives dedup
but yields an empty time series; the result is the empty result. -/
theorem c10_empty_time_series_witness :
    ((([⟨"t", "s", "l", none⟩] : List NewsItem) ++ []) ≠ []) ∧
    (TrendService.dedupByLink
      (TrendService.preprocess (fun _ => "a") ([⟨"t", "s", "l", none⟩] ++ [])) ≠ []) ∧
    (TrendService.createTimeSeries 24
      (TrendService.scoreItems (fun _ => (1, 1))
        (TrendService.dedupByLink
          (TrendService.preprocess (fun _ => "a") ([⟨"t", "s", "l", none⟩] ++ [])))) = []) ∧
    TrendService.analyze_trend (σ := Unit) (fun _ => "a") (fun _ => (1, 1)) (fun _ => [])
        "k" [⟨"t", "s", "l", none⟩] [] 24 5 = TrendService.emptyResult Unit "k" 5 :=
  ⟨by decide, by decide, by decide,
    (c10_empty_time_series_reports_zero_news (fun _ => "a") (fun _ => (1, 1)) (fun _ => [])
      "k" [⟨"t", "s", "l", none⟩] [] 24 5 (by decide) (by decide) (by decide)).1⟩

/-! ## C3: the reported average sentiment is the mean over deduplicated items -/

theorem pyStrip_eq_empty_iff (s : String) :
    pyStrip s = "" ↔ ∀ c ∈ s.data, c.isWhitespace = true := by
  unfold pyStrip
  constructor
  · intro h c hc
    have hl : ((s.data.dropWhile Char.isWhitespace).reverse.dropWhile
        Char.isWhitespace).reverse = [] := by
      simpa using congrArg String.data h
    rw [List.reverse_eq_nil_iff, List.dropWhile_eq_nil_iff] at hl
    by_cases hcw : c.isWhitespace = true
    · exact hcw
    · exfalso
      have hsplit := List.takeWhile_append_dropWhile Char.isWhitespace s.data
      have hc2 : c ∈ s.data.takeWhile Char.isWhitespace ∨
          c ∈ s.data.dropWhile Char.isWhitespace := by
        rw [← List.mem_append, hsplit]
        exact hc
      rcases hc2 with h2 | h2
      · exact hcw (List.mem_takeWhile_imp h2)
      · exact hcw (hl c (List.mem_reverse.mpr h2))
  · intro h
    have h1 : s.data.dropWhile Char.isWhitespace = [] := List.dropWhile_eq_nil_iff.mpr h
    rw [h1]
    rfl

/-- A space-joined pair of trim-fixed strings, one of them non-empty, does
not strip to the empty string. -/
theorem pyStrip_append_ne_empty (a b : String) (ha : pyStrip a = a) (hb : pyStrip b = b)
    (hne : a ≠ "" ∨ b ≠ "") : pyStrip (a ++ " " ++ b) ≠ "" := by
  intro hcontra
  have hall := (pyStrip_eq_empty_iff _).mp hcontra
  rcases hne with h | h
  · obtain ⟨c, hc, hcw⟩ : ∃ c ∈ a.data, ¬c.isWhitespace = true := by
      by_contra hforall
      push_neg at hforall
      exact h (ha ▸ (pyStrip_eq_empty_iff a).mpr hforall)
    apply hcw
    apply hall
    rw [String.data_append, String.data_append]
    exact List.mem_append.mpr (Or.inl (List.mem_append.mpr (Or.inl hc)))
  · obtain ⟨c, hc, hcw⟩ : ∃ c ∈ b.data, ¬c.isWhitespace = true := by
      by_contra hforall
      push_neg at hforall
      exact h (hb ▸ (pyStrip_eq_empty_iff b).mpr hforall)
    apply hcw
    apply hall
    rw [String.data_append]
    exact List.mem_append.mpr (Or.inr hc)

/-- When the cleaner only produces trim-fixed strings (as `clean_text` does —
it ends with `text.strip()`), the text of every preprocessed item strips to a
non-empty string: preprocessing dropped the all-empty items. -/
theorem preprocess_text_ne (clean : String → String)
    (hclean : ∀ s, pyStrip (clean s) = clean s) (items : List NewsItem) :
    ∀ p ∈ TrendService.preprocess clean items, pyStrip (TrendService.itemText p) ≠ "" := by
  intro p hp
  rcases List.mem_filterMap.mp hp with ⟨it, _, hsome⟩
  by_cases hc : clean it.title = "" ∧ clean it.summary = ""
  · rw [if_pos hc] at hsome
    exact absurd hsome (by simp)
  · rw [if_neg hc] at hsome
    injection hsome with hp2
    have hne : clean it.title ≠ "" ∨ clean it.summary ≠ "" := by tauto
    rw [← hp2]
    simp only [TrendService.itemText]
    exact pyStrip_append_ne_empty _ _ (hclean _) (hclean _) hne

theorem dedupLoop_subset (seen : List String) (l : List ProcessedItem) :
    ∀ p ∈ TrendService.dedupLoop seen l, p ∈ l := by
  induction l generalizing seen with
  | nil => simp [TrendService.dedupLoop]
  | cons it rest ih =>
    intro p hp
    unfold TrendService.dedupLoop at hp
    split at hp
    · rcases List.mem_cons.mp hp with h | h
      · simp [h]
      · exact List.mem_cons_of_mem _ (ih _ p h)
    · exact List.mem_cons_of_mem _ (ih _ p hp)

/-- When no item's text strips to empty, step 3 scores every item and
`sentiment_results` is exactly the per-item score list, in order. -/
theorem scoreItems_filterMap_eq (analyzeSentiment : String → ℚ × ℚ)
    (l : List ProcessedItem) (h : ∀ p ∈ l, pyStrip (TrendService.itemText p) ≠ "") :
    (TrendService.scoreItems analyzeSentiment l).filterMap ScoredItem.sentimentScore
      = l.map fun p => (analyzeSentiment (TrendService.itemText p)).1 := by
  induction l with
  | nil => rfl
  | cons p rest ih =>
    have hp := h p (by simp)
    have hrest : ∀ q ∈ rest, pyStrip (TrendService.itemText q) ≠ "" := fun q hq =>
      h q (by simp [hq])
    simp only [TrendService.scoreItems, List.map_cons, List.filterMap_cons] at ih ⊢
    rw [if_neg hp]
    simpa using ih hrest

/-- C3: on any run that takes the main path (non-empty collection, non-empty
time series), the reported `avg_sentiment` is the arithmetic mean of the
per-item sentiment scores of *all* deduplicated items — each deduplicated
item contributes exactly once (the score list is the image of the
deduplicated list) — and not a mean of bucket averages.  The cleaner
hypothesis records that `clean_text` returns stripped strings. -/
theorem c3_avg_sentiment_is_mean_over_deduped {σ : Type} (clean : String → String)
    (analyzeSentiment : String → ℚ × ℚ) (spikeDetect : List (Option ℚ) → List σ)
    (keyword : String) (rssItems googleItems : List NewsItem) (timeWindowHours now : ℕ)
    (hclean : ∀ s, pyStrip (clean s) = clean s)
    (hnews : rssItems ++ googleItems ≠ [])
    (hts : TrendService.createTimeSeries timeWindowHours
        (TrendService.scoreItems analyzeSentiment
          (TrendService.dedupByLink
            (TrendService.preprocess clean (rssItems ++ googleItems)))) ≠ []) :
    (TrendService.analyze_trend clean analyzeSentiment spikeDetect keyword rssItems
        googleItems timeWindowHours now).avgSentiment
      = mean ((TrendService.dedupByLink
            (TrendService.preprocess clean (rssItems ++ googleItems))).map
          fun p => (analyzeSentiment (TrendService.itemText p)).1) := by
  have htext : ∀ p ∈ TrendService.dedupByLink
      (TrendService.preprocess clean (rssItems ++ googleItems)),
      pyStrip (TrendService.itemText p) ≠ "" := fun p hp =>
    preprocess_text_ne clean hclean _ p (dedupLoop_subset [] _ p hp)
  have hsres := scoreItems_filterMap_eq analyzeSentiment _ htext
  have hne : ¬((rssItems ++ googleItems).isEmpty = true) := by
    simpa [List.isEmpty_iff] using hnews
  have htsne : ¬((TrendService.createTimeSeries timeWindowHours
      (TrendService.scoreItems analyzeSentiment
        (TrendService.dedupByLink
          (TrendService.preprocess clean (rssItems ++ googleItems))))).isEmpty = true) := by
    simpa [List.isEmpty_iff] using hts
  have huniqne : TrendService.dedupByLink
      (TrendService.preprocess clean (rssItems ++ googleItems)) ≠ [] := by
    intro h0
    apply hts
    rw [h0]
    rfl
  have hsresne : ¬(((TrendService.scoreItems analyzeSentiment
      (TrendService.dedupByLink
        (TrendService.preprocess clean (rssItems ++ googleItems)))).filterMap
      ScoredItem.sentimentScore).isEmpty = true) := by
    rw [hsres]
    simpa [List.isEmpty_iff] using huniqne
  simp only [TrendService.analyze_trend]
  rw [if_neg hne, if_neg htsne]
  simp only []
  rw [if_neg hsresne, hsres]

/-- C3 witness: a single collected item scored 3/4 produces
`avg_sentiment = 3/4`, the mean over the one deduplicated item. -/
theorem c3_avg_sentiment_witness :
    (TrendService.analyze_trend (σ := Unit) (fun _ => "a") (fun _ => (3/4, 1)) (fun _ => [])
        "k" [⟨"t", "s", "l", some 0⟩] [] 1 7).avgSentiment
      = mean ((TrendService.dedupByLink
            (TrendService.preprocess (fun _ => "a") ([⟨"t", "s", "l", some 0⟩] ++ []))).map
          fun p => ((fun _ => ((3 : ℚ)/4, (1 : ℚ))) (TrendService.itemText p)).1) :=
  c3_avg_sentiment_is_mean_over_deduped (fun _ => "a") (fun _ => (3/4, 1)) (fun _ => [])
    "k" [⟨"t", "s", "l", some 0⟩] [] 1 7
    (fun _ => (by decide : pyStrip "a" = "a")) (by decide)
    (by
      norm_num [TrendService.createTimeSeries, TrendService.scoreItems,
        TrendService.dedupByLink, TrendService.dedupLoop, TrendService.preprocess,
        TrendService.isValidRow, TrendService.itemText,
        show pyStrip ("a" ++ " " ++ "a") ≠ "" from by decide]
      exact ⟨by decide, by decide⟩)

/-! ## C7: the cache fingerprint is canonical in the parameter order -/

/-- Sorting by key maps two permuted parameter lists with (the same) distinct
keys to the same sorted list. -/
theorem sortParams_eq_of_perm (kw1 kw2 : List (String × JsonVal))
    (hperm : kw1.Perm kw2) (hnd : (kw1.map Prod.fst).Nodup) :
    InMemoryCache.sortParams kw1 = InMemoryCache.sortParams kw2 := by
  have hps1 : (InMemoryCache.sortParams kw1).Perm kw1 :=
    List.perm_insertionSort _ kw1
  have hps2 : (InMemoryCache.sortParams kw2).Perm kw2 :=
    List.perm_insertionSort _ kw2
  have hperm12 : (InMemoryCache.sortParams kw1).Perm (InMemoryCache.sortParams kw2) :=
    (hps1.trans hperm).trans hps2.symm
  have hstrict : ∀ l : List (String × JsonVal), (l.map Prod.fst).Nodup →
      l.Sorted (fun a b => a.1 ≤ b.1) → l.Sorted (fun a b => a.1 < b.1) := by
    intro l hl hle
    have hne : l.Pairwise fun a b => a.1 ≠ b.1 := (List.pairwise_map).mp hl
    exact (hle.and hne).imp fun h => lt_of_le_of_ne h.1 h.2
  have hnd1 : ((InMemoryCache.sortParams kw1).map Prod.fst).Nodup :=
    ((hps1.map Prod.fst).nodup_iff).mpr hnd
  have hnd2k : (kw2.map Prod.fst).Nodup := ((hperm.map Prod.fst).nodup_iff).mp hnd
  have hnd2 : ((InMemoryCache.sortParams kw2).map Prod.fst).Nodup :=
    ((hps2.map Prod.fst).nodup_iff).mpr hnd2k
  exact List.eq_of_perm_of_sorted hperm12
    (hstrict _ hnd1 (List.sorted_insertionSort _ kw1))
    (hstrict _ hnd2 (List.sorted_insertionSort _ kw2))

/-- C7: `_generate_key` is canonical: for any digest function, any operation
name and any two keyword-argument lists holding the same key-value pairs (in
any order, keys distinct as in a Python dict), the generated cache key is
identical — the fingerprint is a deterministic function of the operation
name and the *set* of key-value pairs. -/
theorem c7_generate_key_order_independent (md5hex : String → String) (opName : String)
    (kw1 kw2 : List (String × JsonVal)) (hperm : kw1.Perm kw2)
    (hnd : (kw1.map Prod.fst).Nodup) :
    InMemoryCache.generate_key md5hex opName kw1
      = InMemoryCache.generate_key md5hex opName kw2 := by
  unfold InMemoryCache.generate_key InMemoryCache.dumpsObj
  rw [sortParams_eq_of_perm kw1 kw2 hperm hnd]

/-- C7 witness: the pairs `{"kw": "AI", "max_results": 10}` given in the two
possible orders produce the same key. -/
theorem c7_generate_key_witness :
    ([("max_results", JsonVal.int 10), ("kw", JsonVal.str "AI")].Perm
        [("kw", JsonVal.str "AI"), ("max_results", JsonVal.int 10)]) ∧
    ([("max_results", JsonVal.int 10), ("kw", JsonVal.str "AI")].map Prod.fst).Nodup ∧
    InMemoryCache.generate_key (fun s => s) "analyze"
        [("max_results", JsonVal.int 10), ("kw", JsonVal.str "AI")]
      = InMemoryCache.generate_key (fun s => s) "analyze"
        [("kw", JsonVal.str "AI"), ("max_results", JsonVal.int 10)] :=
  ⟨List.Perm.swap _ _ _, by decide,
    c7_generate_key_order_independent (fun s => s) "analyze" _ _
      (List.Perm.swap _ _ _) (by decide)⟩

/-! ## C6: strictly ordered buckets, counts adding up -/

theorem sum_map_add_nat {β : Type} (ks : List β) (f g : β → ℕ) :
    (ks.map fun k => f k + g k).sum = (ks.map f).sum + (ks.map g).sum := by
  induction ks with
  | nil => rfl
  | cons k t ih =>
    simp only [List.map_cons, List.sum_cons, ih]
    omega

/-- Summing the indicator of one element over a duplicate-free list that
contains it gives exactly 1. -/
theorem sum_indicator_one {β : Type} [DecidableEq β] (b : β) (ks : List β)
    (hnd : ks.Nodup) (hmem : b ∈ ks) :
    (ks.map fun k => if b = k then (1 : ℕ) else 0).sum = 1 := by
  induction ks with
  | nil => simp at hmem
  | cons k t ih =>
    rcases List.mem_cons.mp hmem with h | h
    · subst h
      simp only [List.map_cons, List.sum_cons, if_pos rfl]
      have hnotmem : ∀ x ∈ t, ¬(b = x) := by
        intro x hx hbx
        subst hbx
        exact (List.nodup_cons.mp hnd).1 hx
      have hzero : (t.map fun k => if b = k then (1 : ℕ) else 0) = t.map fun _ => 0 :=
        List.map_congr_left fun x hx => if_neg (hnotmem x hx)
      rw [hzero]
      simp
    · have hbk : b ≠ k := fun hbk => (List.nodup_cons.mp hnd).1 (hbk ▸ h)
      simp only [List.map_cons, List.sum_cons, if_neg hbk]
      rw [ih (List.nodup_cons.mp hnd).2 h]

/-- Grouping a list by a key function over a duplicate-free covering list of
keys partitions it: the group sizes add up to the list's length. -/
theorem sum_filter_lengths {α β : Type} [DecidableEq β] (l : List α) (f : α → β)
    (ks : List β) (hnd : ks.Nodup) (hcov : ∀ x ∈ l, f x ∈ ks) :
    (ks.map fun k => (l.filter fun x => f x = k).length).sum = l.length := by
  induction l with
  | nil => simp
  | cons a t ih =>
    have hcovt : ∀ x ∈ t, f x ∈ ks := fun x hx => hcov x (by simp [hx])
    have hmem : f a ∈ ks := hcov a (by simp)
    have hsplit : (ks.map fun k => ((a :: t).filter fun x => f x = k).length)
        = ks.map fun k => (t.filter fun x => f x = k).length + if f a = k then 1 else 0 := by
      apply List.map_congr_left
      intro k _
      by_cases hak : f a = k
      · simp [List.filter_cons, hak]
      · simp [List.filter_cons, hak]
    rw [hsplit, sum_map_add_nat, ih hcovt, sum_indicator_one (f a) ks hnd hmem,
      List.length_cons]

/-- C6: for every input item list and window, the produced time series has
strictly increasing bucket timestamps (no duplicates), and the bucket
`count` fields sum to the number of input rows surviving the
parsable-timestamp/present-score filter. -/
theorem c6_time_series_strictly_sorted_and_counts (timeWindowHours : ℕ)
    (newsItems : List ScoredItem) :
    ((TrendService.createTimeSeries timeWindowHours newsItems).map
        TimeBucket.timestamp).Pairwise (· < ·) ∧
    ((TrendService.createTimeSeries timeWindowHours newsItems).map TimeBucket.count).sum
      = (newsItems.filter TrendService.isValidRow).length := by
  unfold TrendService.createTimeSeries
  by_cases h0 : newsItems.isEmpty
  · rw [if_pos h0]
    rw [List.isEmpty_iff] at h0
    subst h0
    exact ⟨List.Pairwise.nil, rfl⟩
  · rw [if_neg h0]
    by_cases h1 : (newsItems.filter TrendService.isValidRow).isEmpty
    · rw [if_pos h1]
      rw [List.isEmpty_iff] at h1
      rw [h1]
      exact ⟨List.Pairwise.nil, rfl⟩
    · rw [if_neg h1]
      have hperm := List.perm_insertionSort (α := ℕ) (· ≤ ·)
        ((newsItems.filter TrendService.isValidRow).map
          (TrendService.keyOf timeWindowHours)).dedup
      have hnd : (List.insertionSort (· ≤ ·)
          ((newsItems.filter TrendService.isValidRow).map
            (TrendService.keyOf timeWindowHours)).dedup).Nodup :=
        (hperm.nodup_iff).mpr (List.nodup_dedup _)
      have hsorted : (List.insertionSort (· ≤ ·)
          ((newsItems.filter TrendService.isValidRow).map
            (TrendService.keyOf timeWindowHours)).dedup).Sorted (· ≤ ·) :=
        List.sorted_insertionSort _ _
      have htimestamps : ∀ (ks : List ℕ),
          (ks.map (TrendService.bucketFor timeWindowHours
            (newsItems.filter TrendService.isValidRow))).map TimeBucket.timestamp = ks := by
        intro ks
        rw [List.map_map]
        have hcomp : (TimeBucket.timestamp ∘ TrendService.bucketFor timeWindowHours
            (newsItems.filter TrendService.isValidRow)) = id := by
          funext k
          rfl
        rw [hcomp, List.map_id]
      constructor
      · rw [htimestamps]
        exact (hsorted.and hnd).imp fun h => lt_of_le_of_ne h.1 h.2
      · rw [List.map_map]
        have hcounts : ((List.insertionSort (· ≤ ·)
            ((newsItems.filter TrendService.isValidRow).map
              (TrendService.keyOf timeWindowHours)).dedup).map
              (TimeBucket.count ∘ TrendService.bucketFor timeWindowHours
                (newsItems.filter TrendService.isValidRow)))
            = (List.insertionSort (· ≤ ·)
                ((newsItems.filter TrendService.isValidRow).map
                  (TrendService.keyOf timeWindowHours)).dedup).map
              fun k => ((newsItems.filter TrendService.isValidRow).filter
                fun x => TrendService.keyOf timeWindowHours x = k).length :=
          List.map_congr_left fun k _ => rfl
        rw [hcounts]
        exact sum_filter_lengths _ (TrendService.keyOf timeWindowHours) _ hnd
          fun x hx => hperm.mem_iff.mpr
            (List.mem_dedup.mpr (List.mem_map_of_mem _ hx))

/-! ## C4: characterising the moving-average detector's flags

The key combinatorial fact is that the raw slice
`values[valid_indices[r - w] : valid_indices[r] + 1]`, restricted to its
valid entries, is exactly the run of valid *values* of ranks `r - w .. r`:
the detector's masked-raw-window mean is the trailing-window mean over valid
points that the spec describes. -/

theorem validPairsFrom_pairwise (n : ℕ) (vs : List (Option ℚ)) :
    (validPairsFrom n vs).Pairwise fun p q => p.1 < q.1 := by
  induction vs generalizing n with
  | nil => exact List.Pairwise.nil
  | cons x xs ih =>
    cases x with
    | some v =>
      refine List.Pairwise.cons ?_ (ih (n + 1))
      intro q hq
      exact lt_of_lt_of_le (Nat.lt_succ_self n) (validPairsFrom_le_idx (n + 1) xs q hq)
    | none => exact ih (n + 1)

theorem validPairs_idx_mono (values : List (Option ℚ)) {a b : ℕ} {pa pb : ℕ × ℚ}
    (hab : a ≤ b) (ha : (validPairs values).get? a = some pa)
    (hb : (validPairs values).get? b = some pb) : pa.1 ≤ pb.1 := by
  rcases lt_or_eq_of_le hab with h | h
  · have hp := (List.pairwise_iff_get).mp
      (show (validPairs values).Pairwise (fun p q => p.1 < q.1) from
        validPairsFrom_pairwise 0 values)
    rcases List.get?_eq_some.mp ha with ⟨ha1, ha2⟩
    rcases List.get?_eq_some.mp hb with ⟨hb1, hb2⟩
    have := hp ⟨a, ha1⟩ ⟨b, hb1⟩ h
    rw [ha2, hb2] at this
    exact le_of_lt this
  · subst h
    rw [ha] at hb
    injection hb with h2
    rw [h2]

/-- The filtered prefix of the raw array up to (excluding) the valid index of
rank `a` consists of the first `a` valid values. -/
theorem take_filterMap_eq_take_rank (vs : List (Option ℚ)) :
    ∀ (n a : ℕ) (pa : ℕ × ℚ), (validPairsFrom n vs).get? a = some pa →
      (vs.take (pa.1 - n)).filterMap id
        = ((validPairsFrom n vs).map Prod.snd).take a := by
  induction vs with
  | nil =>
    intro n a pa h
    simp [validPairsFrom] at h
  | cons x xs ih =>
    intro n a pa h
    cases x with
    | some v =>
      rw [show validPairsFrom n (some v :: xs) = (n, v) :: validPairsFrom (n + 1) xs
        from rfl] at h ⊢
      cases a with
      | zero =>
        rw [show ((n, v) :: validPairsFrom (n + 1) xs).get? 0 = some (n, v) from rfl] at h
        injection h with h2
        rw [← h2]
        simp
      | succ a1 =>
        rw [List.get?_cons_succ] at h
        have hge : n + 1 ≤ pa.1 := validPairsFrom_le_idx (n + 1) xs pa (List.get?_mem h)
        have hsub : pa.1 - n = (pa.1 - (n + 1)) + 1 := by omega
        rw [hsub, List.take_succ_cons, List.filterMap_cons]
        simp only [id, List.map_cons, List.take_succ_cons]
        rw [ih (n + 1) a1 pa h]
    | none =>
      rw [show validPairsFrom n (none :: xs) = validPairsFrom (n + 1) xs from rfl] at h ⊢
      have hge : n + 1 ≤ pa.1 := validPairsFrom_le_idx (n + 1) xs pa (List.get?_mem h)
      have hsub : pa.1 - n = (pa.1 - (n + 1)) + 1 := by omega
      rw [hsub, List.take_succ_cons, List.filterMap_cons]
      simpa using ih (n + 1) a pa h

/-- The filtered prefix of the raw array up to and *including* the valid
index of rank `a` consists of the first `a + 1` valid values. -/
theorem take_filterMap_eq_take_rank_succ (vs : List (Option ℚ)) :
    ∀ (n a : ℕ) (pa : ℕ × ℚ), (validPairsFrom n vs).get? a = some pa →
      (vs.take (pa.1 + 1 - n)).filterMap id
        = ((validPairsFrom n vs).map Prod.snd).take (a + 1) := by
  induction vs with
  | nil =>
    intro n a pa h
    simp [validPairsFrom] at h
  | cons x xs ih =>
    intro n a pa h
    cases x with
    | some v =>
      rw [show validPairsFrom n (some v :: xs) = (n, v) :: validPairsFrom (n + 1) xs
        from rfl] at h ⊢
      cases a with
      | zero =>
        rw [show ((n, v) :: validPairsFrom (n + 1) xs).get? 0 = some (n, v) from rfl] at h
        injection h with h2
        rw [← h2]
        simp
      | succ a1 =>
        rw [List.get?_cons_succ] at h
        have hge : n + 1 ≤ pa.1 := validPairsFrom_le_idx (n + 1) xs pa (List.get?_mem h)
        have hsub : pa.1 + 1 - n = (pa.1 + 1 - (n + 1)) + 1 := by omega
        rw [hsub, List.take_succ_cons, List.filterMap_cons]
        simp only [id, List.map_cons, List.take_succ_cons]
        rw [ih (n + 1) a1 pa h]
    | none =>
      rw [show validPairsFrom n (none :: xs) = validPairsFrom (n + 1) xs from rfl] at h ⊢
      have hge : n + 1 ≤ pa.1 := validPairsFrom_le_idx (n + 1) xs pa (List.get?_mem h)
      have hsub : pa.1 + 1 - n = (pa.1 + 1 - (n + 1)) + 1 := by omega
      rw [hsub, List.take_succ_cons, List.filterMap_cons]
      simpa using ih (n + 1) a pa h

/-- The crux: the valid entries of the raw window between the valid indices
of ranks `a ≤ b` are exactly the valid values of ranks `a .. b`. -/
theorem window_filterMap_eq (values : List (Option ℚ)) (a b : ℕ) (pa pb : ℕ × ℚ)
    (hab : a ≤ b) (ha : (validPairs values).get? a = some pa)
    (hb : (validPairs values).get? b = some pb) :
    (MovingAverageDetector.rawSlice values pa.1 pb.1).filterMap id
      = (((validPairs values).map Prod.snd).take (b + 1)).drop a := by
  have hidx : pa.1 ≤ pb.1 := validPairs_idx_mono values hab ha hb
  have hL10 := take_filterMap_eq_take_rank values 0 a pa ha
  have hL20 := take_filterMap_eq_take_rank_succ values 0 b pb hb
  simp only [Nat.sub_zero] at hL10 hL20
  have hL1 : (values.take pa.1).filterMap id
      = ((validPairs values).map Prod.snd).take a := hL10
  have hL2 : (values.take (pb.1 + 1)).filterMap id
      = ((validPairs values).map Prod.snd).take (b + 1) := hL20
  have hdecomp : values.take (pb.1 + 1)
      = values.take pa.1 ++ MovingAverageDetector.rawSlice values pa.1 pb.1 := by
    rw [MovingAverageDetector.rawSlice, ← List.take_add]
    congr 1
    omega
  have happ := congrArg (List.filterMap id) hdecomp
  rw [List.filterMap_append, hL2, hL1] at happ
  have halen : a < (validPairs values).length := (List.get?_eq_some.mp ha).1
  have hlen : ((((validPairs values).map Prod.snd)).take a).length = a := by
    rw [List.length_take, List.length_map]
    omega
  calc (MovingAverageDetector.rawSlice values pa.1 pb.1).filterMap id
      = ((((validPairs values).map Prod.snd).take a) ++
          (MovingAverageDetector.rawSlice values pa.1 pb.1).filterMap id).drop
        ((((validPairs values).map Prod.snd).take a)).length :=
        (List.drop_left _ _).symm
    _ = ((((validPairs values).map Prod.snd).take a) ++
          (MovingAverageDetector.rawSlice values pa.1 pb.1).filterMap id).drop a := by
        rw [hlen]
    _ = (((validPairs values).map Prod.snd).take (b + 1)).drop a := by rw [← happ]

theorem validPairsFrom_length_le (n : ℕ) (vs : List (Option ℚ)) :
    (validPairsFrom n vs).length ≤ vs.length := by
  induction vs generalizing n with
  | nil => simp [validPairsFrom]
  | cons x xs ih =>
    cases x with
    | some v =>
      rw [show validPairsFrom n (some v :: xs) = (n, v) :: validPairsFrom (n + 1) xs
        from rfl, List.length_cons, List.length_cons]
      exact Nat.succ_le_succ (ih (n + 1))
    | none =>
      rw [show validPairsFrom n (none :: xs) = validPairsFrom (n + 1) xs from rfl,
        List.length_cons]
      exact (ih (n + 1)).trans (Nat.le_succ _)

/-- For a rank `r` inside the valid range and past the first full window,
the moving average is defined and equals the mean of the spec's trailing
window. -/
theorem movingAvgAtRank_spec (window : ℕ) (values : List (Option ℚ)) (r : ℕ)
    (hr : r < (validPairs values).length) (hw : window ≤ r) :
    ∃ pb, (validPairs values).get? r = some pb ∧
      MovingAverageDetector.movingAvgAtRank window values r
        = some (mean (specWindow window (values.filterMap id) r)) := by
  obtain ⟨pa, hpa⟩ : ∃ pa, (validPairs values).get? (r - window) = some pa := by
    cases hx : (validPairs values).get? (r - window) with
    | none => exact absurd (List.get?_eq_none.mp hx) (by omega)
    | some pa => exact ⟨pa, rfl⟩
  obtain ⟨pb, hpb⟩ : ∃ pb, (validPairs values).get? r = some pb := by
    cases hx : (validPairs values).get? r with
    | none => exact absurd (List.get?_eq_none.mp hx) (by omega)
    | some pb => exact ⟨pb, rfl⟩
  have hwin := window_filterMap_eq values (r - window) r pa pb (by omega) hpa hpb
  rw [validPairs_map_snd] at hwin
  have hwin2 : (MovingAverageDetector.rawSlice values pa.1 pb.1).filterMap id
      = specWindow window (values.filterMap id) r := hwin
  have hlen : ((MovingAverageDetector.rawSlice values pa.1 pb.1).filterMap id).length > 0 := by
    rw [hwin2]
    unfold specWindow
    rw [List.length_drop, List.length_take]
    have hmin : (r + 1) ⊓ (values.filterMap id).length = r + 1 := by
      have : (validPairs values).length = (values.filterMap id).length :=
        validPairsFrom_length 0 values
      exact min_eq_left (by omega)
    omega
  refine ⟨pb, hpb, ?_⟩
  unfold MovingAverageDetector.movingAvgAtRank
  rw [if_pos hw, hpa, hpb]
  simp only [Option.some_bind]
  rw [if_pos hlen, hwin2]

/-- C4: for a series with at least `window + 1` valid points and non-zero
global standard deviation, `MovingAverageDetector.detect` flags exactly the
raw indices satisfying the spec's condition: a valid entry at or after the
first full window whose deviation from the trailing-window mean of valid
values, normalised by the global population standard deviation, exceeds the
threshold. -/
theorem c4_moving_average_flags_iff (window : ℕ) (threshold : ℚ)
    (values : List (Option ℚ))
    (hvalid : window + 1 ≤ (values.filterMap id).length)
    (hstd : popVar (values.filterMap id) ≠ 0) (j : ℕ) :
    (∃ rec ∈ MovingAverageDetector.detect window threshold values, rec.start = j)
      ↔ specFlagged window threshold values j := by
  have hlenvp : (validPairs values).length = (values.filterMap id).length :=
    validPairsFrom_length 0 values
  have hlenraw : (validPairs values).length ≤ values.length :=
    validPairsFrom_length_le 0 values
  have hc1 : ¬(values.length < window + 1) := by omega
  have hc2 : ¬((validPairs values).length < window + 1) := by omega
  have hsv : ¬(popVar ((validPairs values).map Prod.snd) = 0) := by
    rw [validPairs_map_snd]
    exact hstd
  have hdet : MovingAverageDetector.detect window threshold values
      = (List.range (validPairs values).length).filterMap fun r =>
          ((validPairs values).get? r).bind fun p =>
            (MovingAverageDetector.movingAvgAtRank window values r).bind fun ma =>
              if zExceeds (p.2 - ma) (popVar ((validPairs values).map Prod.snd))
                  threshold then
                some ⟨p.1, p.1,
                  (p.2 - ma) ^ 2 / popVar ((validPairs values).map Prod.snd), p.2⟩
              else none := by
    simp only [MovingAverageDetector.detect]
    rw [if_neg hc1, if_neg hc2, if_neg hsv]
  rw [hdet]
  constructor
  · rintro ⟨rec, hrec, hstart⟩
    rcases List.mem_filterMap.mp hrec with ⟨r, hrmem, hf⟩
    have hrN : r < (validPairs values).length := List.mem_range.mp hrmem
    rcases Option.bind_eq_some.mp hf with ⟨p, hp, hf2⟩
    rcases Option.bind_eq_some.mp hf2 with ⟨ma, hma, hf3⟩
    have hw : window ≤ r := by
      by_contra hwc
      rw [MovingAverageDetector.movingAvgAtRank, if_neg hwc] at hma
      exact Option.noConfusion hma
    rcases movingAvgAtRank_spec window values r hrN hw with ⟨pb, hpb, hma2⟩
    have hppb : p = pb := by
      rw [hp] at hpb
      injection hpb
    have hmaval : ma = mean (specWindow window (values.filterMap id) r) := by
      rw [hma] at hma2
      injection hma2 with h2
    by_cases hz : zExceeds (p.2 - ma) (popVar ((validPairs values).map Prod.snd))
        threshold = true
    · rw [if_pos hz] at hf3
      injection hf3 with hf4
      have hpj : p.1 = j := by
        rw [← hf4] at hstart
        exact hstart
      refine ⟨r, p.2, ?_, hw, ?_⟩
      · rw [← hpj]
        rw [hp]
      · rw [← hmaval]
        rw [validPairs_map_snd] at hz
        exact hz
    · rw [if_neg hz] at hf3
      exact Option.noConfusion hf3
  · rintro ⟨r, v, hget, hw, hz⟩
    have hrN : r < (validPairs values).length := (List.get?_eq_some.mp hget).1
    rcases movingAvgAtRank_spec window values r hrN hw with ⟨pb, hpb, hma⟩
    have hpbv : pb = (j, v) := by
      rw [hget] at hpb
      injection hpb with h2
      exact h2.symm
    refine ⟨⟨j, j, (v - mean (specWindow window (values.filterMap id) r)) ^ 2 /
        popVar ((validPairs values).map Prod.snd), v⟩, ?_, rfl⟩
    apply List.mem_filterMap.mpr
    refine ⟨r, List.mem_range.mpr hrN, ?_⟩
    rw [hget, Option.some_bind, hma, Option.some_bind]
    have hzr : zExceeds ((j, v).2 - mean (specWindow window (values.filterMap id) r))
        (popVar ((validPairs values).map Prod.snd)) threshold = true := by
      rw [validPairs_map_snd]
      exact hz
    rw [if_pos hzr]

/-- C4 witness: window 1, threshold 1 on `[0, 0, 10]`: index 2 is flagged and
the spec condition agrees. -/
theorem c4_moving_average_witness :
    (1 + 1 ≤ (([some 0, some 0, some 10] : List (Option ℚ)).filterMap id).length) ∧
    popVar (([some 0, some 0, some 10] : List (Option ℚ)).filterMap id) ≠ 0 ∧
    ((∃ rec ∈ MovingAverageDetector.detect 1 1 [some 0, some 0, some 10], rec.start = 2)
      ↔ specFlagged 1 1 [some 0, some 0, some 10] 2) :=
  ⟨by decide,
    by norm_num [popVar, mean, List.filterMap_cons],
    c4_moving_average_flags_iff 1 1 [some 0, some 0, some 10] (by decide)
      (by norm_num [popVar, mean, List.filterMap_cons]) 2⟩

end NewsTrend

